/-
Verification of the OpenTelemetry semantic-convention graph builder
(read_yaml_from_disk.py) against its natural-language specification.

The Python module is shallowly embedded: YAML scalars/containers become the
inductive type `Val`; Python dicts become insertion-ordered association
lists with Python assignment/deletion/update semantics; the mutable
`SemanticConventions` object becomes the record `SemState` threaded through
each method; a raised exception becomes a `some msg` second component
(partial effects performed before the raise are kept, as in Python).

Noted approximations:
  * in-place mutation of a descriptor dict is not reflected inside the
    already-stored copy of its enclosing section (Python aliases them); the
    theorems below therefore only ever assert scalar-field content, key
    membership or identity of stored nodes, never the value of a nested
    descriptor inside a stored section;
  * iterating a non-list value (e.g. a string) where the code expects a
    list is modelled as a TypeError;
  * str() of a nested container inside an `examples` list is rendered as a
    placeholder rather than the exact Python repr.
-/
import Mathlib

namespace SemConv

/-- A Python/YAML value: string, integer, boolean, list or dict. -/
inductive Val where
  | str (s : String)
  | int (n : Int)
  | bool (b : Bool)
  | list (xs : List Val)
  | dict (xs : List (String × Val))

/-- Structural equality on values (Python `==` on the modelled values). -/
def Val.beq : Val → Val → Bool
  | .str a, .str b => a == b
  | .int a, .int b => a == b
  | .bool a, .bool b => a == b
  | .list as, .list bs => beqL as bs
  | .dict as, .dict bs => beqD as bs
  | _, _ => false
where
  beqL : List Val → List Val → Bool
    | [], [] => true
    | a :: as, b :: bs => Val.beq a b && beqL as bs
    | _, _ => false
  beqD : List (String × Val) → List (String × Val) → Bool
    | [], [] => true
    | (k, v) :: as, (l, w) :: bs => k == l && Val.beq v w && beqD as bs
    | _, _ => false

/-- A Python dict with string keys, as an insertion-ordered association list. -/
abbrev Dict := List (String × Val)

/-- `k in d` for a Python dict. -/
def dmem : Dict → String → Bool
  | [], _ => false
  | p :: d, k => if p.1 = k then true else dmem d k

/-- `d.get(k)` / `d[k]` for a Python dict (first occurrence). -/
def dlookup : Dict → String → Option Val
  | [], _ => none
  | p :: d, k => if p.1 = k then some p.2 else dlookup d k

/-- `d[k] = v` for a Python dict: replace in place if present, else append. -/
def dset (d : Dict) (k : String) (v : Val) : Dict :=
  if dmem d k then d.map (fun p => if p.1 = k then (p.1, v) else p)
  else d ++ [(k, v)]

/-- `del d[k]` for a Python dict. -/
def ddel : Dict → String → Dict
  | [], _ => []
  | p :: d, k => if p.1 = k then ddel d k else p :: ddel d k

/-- `d.update(e)` for a Python dict: assign every pair of `e` in order. -/
def dupdate (d e : Dict) : Dict := e.foldl (fun acc p => dset acc p.1 p.2) d

/-- The value of the last occurrence of `k` in `e` (the one surviving a
replay of the assignments of `e` in order, as `dict.update` does). -/
def lastVal : Dict → String → Option Val
  | [], _ => none
  | p :: d, k =>
      match lastVal d k with
      | some w => some w
      | none => if p.1 = k then some p.2 else none

/-- A node collection (`self.nodes[node_type]`): a Python dict keyed by the
node identifier value, holding the stored field mapping of each node. -/
abbrev NodeColl := List (Val × Dict)

/-- `key in coll` on a node collection. -/
def nmem : NodeColl → Val → Bool
  | [], _ => false
  | p :: c, k => Val.beq p.1 k || nmem c k

/-- `coll[key]` on a node collection. -/
def nlookup : NodeColl → Val → Option Dict
  | [], _ => none
  | p :: c, k => if Val.beq p.1 k then some p.2 else nlookup c k

/-- `coll[key] = fields` on a node collection. -/
def nset (c : NodeColl) (k : Val) (v : Dict) : NodeColl :=
  if nmem c k then c.map (fun p => if Val.beq p.1 k then (p.1, v) else p)
  else c ++ [(k, v)]

/-- One edge-type entry of `self.relations`: a Python dict from source node
type to the list of edges (each a dict) produced from nodes of that type. -/
abbrev EdgeBatches := List (String × List Dict)

/-- `node_type in batches`. -/
def ebMem : EdgeBatches → String → Bool
  | [], _ => false
  | p :: b, node_type => if p.1 = node_type then true else ebMem b node_type

/-- `batches[node_type]`, defaulting to the empty list when absent. -/
def ebGet : EdgeBatches → String → List Dict
  | [], _ => []
  | p :: b, node_type => if p.1 = node_type then p.2 else ebGet b node_type

/-- `batches.setdefault(node_type, [])`. -/
def ebSetdefault (b : EdgeBatches) (node_type : String) : EdgeBatches :=
  if ebMem b node_type then b else b ++ [(node_type, [])]

/-- `rels.append(edge)` where `rels` is the list stored at `node_type`. -/
def ebAppend (b : EdgeBatches) (node_type : String) (e : Dict) : EdgeBatches :=
  b.map (fun p => if p.1 = node_type then (p.1, p.2 ++ [e]) else p)

/-- `self.nodes`: the six fixed node-type collections created by `reset`
(`dict(Metric={}, Entity={}, Span={}, AttributeGroup={}, Event={},
Attribute={})`); the key set never changes, so the dict is a record. -/
structure Nodes where
  metric : NodeColl
  entity : NodeColl
  span : NodeColl
  attributeGroup : NodeColl
  event : NodeColl
  attributeNodes : NodeColl

/-- `self.nodes.items()`, in the insertion order fixed by `reset`. -/
def Nodes.items (ns : Nodes) : List (String × NodeColl) :=
  [("Metric", ns.metric), ("Entity", ns.entity), ("Span", ns.span),
   ("AttributeGroup", ns.attributeGroup), ("Event", ns.event),
   ("Attribute", ns.attributeNodes)]

/-- `self.nodes[node_type]` (`none` models `node_type not in self.nodes`). -/
def Nodes.get (ns : Nodes) (node_type : String) : Option NodeColl :=
  if node_type = "Metric" then some ns.metric
  else if node_type = "Entity" then some ns.entity
  else if node_type = "Span" then some ns.span
  else if node_type = "AttributeGroup" then some ns.attributeGroup
  else if node_type = "Event" then some ns.event
  else if node_type = "Attribute" then some ns.attributeNodes
  else none

/-- `self.nodes[node_type] = coll` (only ever used with one of the six keys). -/
def Nodes.set (ns : Nodes) (node_type : String) (c : NodeColl) : Nodes :=
  if node_type = "Metric" then { ns with metric := c }
  else if node_type = "Entity" then { ns with entity := c }
  else if node_type = "Span" then { ns with span := c }
  else if node_type = "AttributeGroup" then { ns with attributeGroup := c }
  else if node_type = "Event" then { ns with event := c }
  else if node_type = "Attribute" then { ns with attributeNodes := c }
  else ns

/-- `self.relations`: the three fixed edge collections created by `reset`
(`dict(HasAttribute={}, HasEvent={}, AssociatedWith={})`). -/
structure Relations where
  hasAttribute : EdgeBatches
  hasEvent : EdgeBatches
  associatedWith : EdgeBatches

/-- `self.relations.items()`, in the insertion order fixed by `reset`. -/
def Relations.items (r : Relations) : List (String × EdgeBatches) :=
  [("HasAttribute", r.hasAttribute), ("HasEvent", r.hasEvent),
   ("AssociatedWith", r.associatedWith)]

/-- The mutable state of a `SemanticConventions` instance. -/
structure SemState where
  nodes : Nodes
  relations : Relations

/-- `reset()`: fresh empty collections (also the state after `__init__`). -/
def resetState : SemState :=
  { nodes := { metric := [], entity := [], span := [], attributeGroup := [],
               event := [], attributeNodes := [] },
    relations := { hasAttribute := [], hasEvent := [], associatedWith := [] } }

/-- Python `str(x)` as used when joining `examples` values (exact on the
scalar values that occur there; nested containers get a placeholder). -/
def pyStr : Val → String
  | .str s => s
  | .int n => toString n
  | .bool b => if b then "True" else "False"
  | .list _ => "[...]"
  | .dict _ => "\x7b...\x7d"

/-- `'\n'.join(str(x) for x in v)`: `none` models the TypeError raised when
`v` is not iterable; iterating a string yields its characters and iterating
a dict yields its keys, as in Python. -/
def examplesJoin : Val → Option String
  | .list xs => some (String.intercalate "\n" (xs.map pyStr))
  | .str s => some (String.intercalate "\n" (s.toList.map String.singleton))
  | .dict xs => some (String.intercalate "\n" (xs.map (fun p => p.1)))
  | _ => none

/-- Lines 119-126 of `relate2attribute`: flatten a compound
`requirement_level` mapping on a reference-shape descriptor.  Both `if`
checks run in order against the original compound value. -/
def flattenRequirement (data : Dict) : Dict :=
  match dlookup data "requirement_level" with
  | some (Val.dict requirement) =>
      let data1 :=
        match dlookup requirement "conditionally_required" with
        | some c =>
            dset (dset data "condition" c) "requirement_level"
              (Val.str "conditionally_required")
        | none => data
      match dlookup requirement "recommended" with
      | some c =>
          dset (dset data1 "condition" c) "requirement_level"
            (Val.str "recommended")
      | none => data1
  | _ => data

/-- The loop body of `relate2attribute` (lines 114-136), as a pure function
of one descriptor: on success it returns the edge dict to append and, for
an inline descriptor, the `(id, fields)` pair assigned into
`self.nodes['Attribute']`; an error models the exception raised. -/
def attrDescResult (node : Val) (dataV : Val) : Except String (Dict × Option (Val × Dict)) :=
  match dataV with
  | .dict data =>
    match dlookup data "ref" with
    | some refVal =>
        let edge_info := dset [("from", node)] "to" refVal
        let data1 := ddel data "ref"
        let data2 := flattenRequirement data1
        match dlookup data2 "examples" with
        | some ex =>
            match examplesJoin ex with
            | some s => .ok (dupdate edge_info (dset data2 "examples" (Val.str s)), none)
            | none => .error "TypeError: examples value is not iterable"
        | none => .ok (dupdate edge_info data2, none)
    | none =>
        match dlookup data "id" with
        | none => .error "KeyError: id"
        | some attribute_name =>
            if dmem data "type" then
              .ok (dset [("from", node)] "to" attribute_name,
                   some (attribute_name, ddel data "type"))
            else .error "KeyError: type"
  | _ => .error "TypeError: descriptor is not a mapping"

/-- The edge a descriptor contributes on success (`[]` when it raises). -/
def descEdgeOf (node : Val) (dataV : Val) : Dict :=
  match attrDescResult node dataV with
  | .ok (e, _) => e
  | .error _ => []

/-- The Attribute-registry insertion an inline descriptor performs on
success (`none` for reference-shape or failing descriptors). -/
def descIns (node : Val) (dataV : Val) : Option (Val × Dict) :=
  match attrDescResult node dataV with
  | .ok (_, i) => i
  | .error _ => none

/-- Run a loop body over a list, stopping at the first exception but
keeping the state mutations already performed (Python loop semantics). -/
def foldE {α : Type} (f : SemState → α → SemState × Option String) :
    SemState → List α → SemState × Option String
  | st, [] => (st, none)
  | st, a :: as =>
    match f st a with
    | (st2, none) => foldE f st2 as
    | (st2, some e) => (st2, some e)

/-- One iteration of the `relate2attribute` loop applied to the state. -/
def attrStep (node_type : String) (node : Val) (st : SemState) (dataV : Val) :
    SemState × Option String :=
  match attrDescResult node dataV with
  | .error e => (st, some e)
  | .ok (edge_info, insertion) =>
      let st1 :=
        match insertion with
        | some (k, fields) =>
            { st with nodes.attributeNodes := nset st.nodes.attributeNodes k fields }
        | none => st
      ({ st1 with relations.hasAttribute := ebAppend st1.relations.hasAttribute node_type edge_info },
       none)

/-- `relate2attribute(node_type, node, attributes)` (lines 104-136). -/
def relate2attribute (st : SemState) (node_type : String) (node : Val)
    (attributes : List Val) : SemState × Option String :=
  let st0 := { st with relations.hasAttribute := ebSetdefault st.relations.hasAttribute node_type }
  foldE (attrStep node_type node) st0 attributes

/-- Python `s.startswith(pre)`, character by character (the library
`String.startsWith` is equivalent but does not reduce in the kernel). -/
def charsPre : List Char → List Char → Bool
  | [], _ => true
  | _ :: _, [] => false
  | a :: as, b :: bs => a == b && charsPre as bs

/-- `s.startswith(pre)` on strings. -/
def pyStartsWith (s pre : String) : Bool := charsPre pre.data s.data

/-- One iteration of the `relate2event` loop (lines 164-168): note the
namespace check uses the bare word `event`, without the trailing dot. -/
def eventStep (node_type : String) (node : Val) (st : SemState) (ev : Val) :
    SemState × Option String :=
  match ev with
  | .str event_name =>
      let name := if pyStartsWith event_name "event" then event_name
                  else "event." ++ event_name
      ({ st with relations.hasEvent :=
           ebAppend st.relations.hasEvent node_type [("from", node), ("to", Val.str name)] },
       none)
  | _ => (st, some "AttributeError: startswith")

/-- `relate2event(node_type, node, events)` (lines 155-168). -/
def relate2event (st : SemState) (node_type : String) (node : Val)
    (events : List Val) : SemState × Option String :=
  let st0 := { st with relations.hasEvent := ebSetdefault st.relations.hasEvent node_type }
  foldE (eventStep node_type node) st0 events

/-- One iteration of the `relate2associated_entity` loop (lines 147-153):
the namespace check uses the bare word `entity`, without the trailing dot. -/
def assocStep (node_type : String) (node : Val) (st : SemState) (entityV : Val) :
    SemState × Option String :=
  match entityV with
  | .str entity0 =>
      let name := if pyStartsWith entity0 "entity" then entity0
                  else "entity." ++ entity0
      ({ st with relations.associatedWith :=
           ebAppend st.relations.associatedWith node_type [("from", node), ("to", Val.str name)] },
       none)
  | _ => (st, some "AttributeError: startswith")

/-- `relate2associated_entity(node_type, node, entities)` (lines 138-153). -/
def relate2associated_entity (st : SemState) (node_type : String) (node : Val)
    (entities : List Val) : SemState × Option String :=
  let st0 := { st with relations.associatedWith := ebSetdefault st.relations.associatedWith node_type }
  foldE (assocStep node_type node) st0 entities

/-- `add_attribute(attribute)` (lines 170-183): the Attribute Registry
insert - reject and log when the key already exists, else store. -/
def add_attribute (st : SemState) (attr : Dict) : SemState × Option String :=
  match dlookup attr "id" with
  | none => (st, some "KeyError: id")
  | some key =>
      if nmem st.nodes.attributeNodes key then (st, none)
      else ({ st with nodes.attributeNodes := nset st.nodes.attributeNodes key attr }, none)

/-- `nodetype2node(section)` (lines 42-50): map the declared `type` field to
the node-table name, `none` when unknown (Python `None`).  A non-string,
non-scalar discriminator is classified as unknown here (in Python an
unhashable discriminator would raise inside `mappings.get`; no claim
touches that corner). -/
def nodetype2node (sect : Dict) : Option String :=
  match dlookup sect "type" with
  | some (Val.str "metric") => some "Metric"
  | some (Val.str "entity") => some "Entity"
  | some (Val.str "span") => some "Span"
  | some (Val.str "attribute_group") => some "AttributeGroup"
  | some (Val.str "event") => some "Event"
  | _ => none

/-- `section.get(k, [])` where the value, when present, is expected to be a
list (non-list values are modelled as a TypeError). -/
def getListField (sect : Dict) (k : String) : Except String (List Val) :=
  match dlookup sect k with
  | none => .ok []
  | some (Val.list xs) => .ok xs
  | some _ => .error "TypeError: value is not a list"

/-- The classified-entry branch of `add_groups` (lines 89-100): store the
entry under its node type, run the three resolvers, then the
AttributeGroup `display_name` rule (whose in-place mutation of the stored
section is modelled by re-storing it).  The store is a snapshot: Python
aliases the stored section with the descriptor dicts the resolvers then
mutate in place (`del data[...]`, requirement flattening), and the model
does not replay those mutations into the stored node, so theorems assert
only scalar fields and key membership of stored nodes. -/
def processSection (st : SemState) (node_type : String) (sect : Dict) :
    SemState × Option String :=
  match dlookup sect "id" with
  | none => (st, some "KeyError: id")
  | some key =>
    let sect1 := ddel sect "type"
    let stStored :=
      { st with nodes := st.nodes.set node_type (nset ((st.nodes.get node_type).getD []) key sect1) }
    match getListField sect1 "attributes" with
    | .error e => (stStored, some e)
    | .ok attrs =>
      match relate2attribute stStored node_type key attrs with
      | (stA, some e) => (stA, some e)
      | (stA, none) =>
        match getListField sect1 "events" with
        | .error e => (stA, some e)
        | .ok evs =>
          match relate2event stA node_type key evs with
          | (stE, some e) => (stE, some e)
          | (stE, none) =>
            let afterAssoc :=
              match dlookup sect1 "entity_associations" with
              | none => (stE, none)
              | some (Val.list es) => relate2associated_entity stE node_type key es
              | some _ => (stE, some "TypeError: entity_associations is not a list")
            match afterAssoc with
            | (stS, some e) => (stS, some e)
            | (stS, none) =>
              if node_type = "AttributeGroup" ∧ dmem sect1 "display_name" = false then
                ({ stS with nodes := stS.nodes.set node_type (nset ((stS.nodes.get node_type).getD []) key (dset sect1 "display_name" key)) }, none)
              else (stS, none)

/-- One iteration of the `add_groups` loop (lines 86-102): classify the
section; unknown kinds are logged and dropped without an exception. -/
def addGroupStep (st : SemState) (sectionV : Val) : SemState × Option String :=
  match sectionV with
  | .dict sect =>
    match nodetype2node sect with
    | some node_type =>
        if (st.nodes.get node_type).isSome then processSection st node_type sect
        else (st, none)
    | none => (st, none)
  | _ => (st, some "AttributeError: section is not a mapping")

/-- `add_groups(yaml_data)` (lines 80-102). -/
def add_groups (st : SemState) (yaml_data : Dict) : SemState × Option String :=
  match dlookup yaml_data "groups" with
  | none => (st, none)
  | some (Val.list gs) => foldE addGroupStep st gs
  | some _ => (st, some "TypeError: groups is not a list")

/-- One YAML file as seen by `import_conventions_from_dir`: either its text
failed to parse (`yaml.YAMLError`) or it parsed to a value. -/
inductive DocFile where
  | parseError
  | parsed (v : Val)

/-- The body of the file loop (lines 69-78): parse errors and exceptions
escaping `add_groups` are caught and logged, keeping the state built so
far; non-dict documents are skipped. -/
def processFile (st : SemState) (f : DocFile) : SemState :=
  match f with
  | .parseError => st
  | .parsed (Val.dict yaml_data) => (add_groups st yaml_data).1
  | .parsed _ => st

/-- `import_conventions_from_dir(base_path)` (lines 52-78), with the file
system abstracted to whether the root is a directory and the list of
parsed documents found under it: a missing root is logged and the method
returns with the state untouched. -/
def import_conventions_from_dir (st : SemState) (is_dir : Bool)
    (files : List DocFile) : SemState :=
  if is_dir then files.foldl processFile st else st

/-- One Cypher `COPY` statement issued by the persistence adapter, rendered
structurally instead of as the interpolated statement string. -/
inductive CopyStmt where
  | node (node_type : String) (filename : String) (ignore_errors : Bool)
  | rel (rel_name : String) (filename : String) (fromType : String) (toType : Option String)

/-- `PersistenceKuzu.relation2node` (lines 193-197). -/
def relation2node : String → Option String
  | "HasAttribute" => some "Attribute"
  | "HasEvent" => some "Event"
  | "AssociatedWith" => some "Entity"
  | _ => none

/-- `persist_nodes()` (lines 230-238): for each node type, the batch file
written (`save_import_file(filename, list(data.values()))`) and the COPY
statement executed. -/
def persist_nodes (st : SemState) : List (String × List Dict) × List CopyStmt :=
  (st.nodes.items.map (fun p => (p.1 ++ "s.json", p.2.map (fun q => q.2))),
   st.nodes.items.map (fun p => CopyStmt.node p.1 (p.1 ++ "s.json") true))

/-- The (rel_name, node_type, edges) triples visited by the nested loops of
`persist_relations` (lines 244-250), in iteration order. -/
def relPairs (st : SemState) : List (String × String × List Dict) :=
  (st.relations.items.map (fun rp => rp.2.map (fun np => (rp.1, np.1, np.2)))).flatten

/-- `persist_relations()` (lines 240-250): the batch files written and the
COPY statements executed, one per (source node type, edge type) entry of
`self.relations`. -/
def persist_relations (st : SemState) : List (String × List Dict) × List CopyStmt :=
  ((relPairs st).map (fun t => ("rel_" ++ t.2.1 ++ "_" ++ t.1 ++ ".json", t.2.2)),
   (relPairs st).map (fun t =>
     CopyStmt.rel t.1 ("rel_" ++ t.2.1 ++ "_" ++ t.1 ++ ".json") t.2.1 (relation2node t.1)))

/-! ### Basic algebra of the embedded dict and collection operations -/

-- Reflexivity of value equality, by mutual recursion over the nested type.
mutual
theorem Val.beq_refl : (v : Val) → Val.beq v v = true
  | .str _ => by simp [Val.beq]
  | .int _ => by simp [Val.beq]
  | .bool _ => by simp [Val.beq]
  | .list xs => by simpa [Val.beq] using Val.beqL_refl xs
  | .dict xs => by simpa [Val.beq] using Val.beqD_refl xs
theorem Val.beqL_refl : (xs : List Val) → Val.beq.beqL xs xs = true
  | [] => by simp [Val.beq.beqL]
  | x :: xs => by simp [Val.beq.beqL, Val.beq_refl x, Val.beqL_refl xs]
theorem Val.beqD_refl : (xs : List (String × Val)) → Val.beq.beqD xs xs = true
  | [] => by simp [Val.beq.beqD]
  | (_, v) :: xs => by simp [Val.beq.beqD, Val.beq_refl v, Val.beqD_refl xs]
end

theorem dmem_eq_isSome (d : Dict) (k : String) : dmem d k = (dlookup d k).isSome := by
  induction d with
  | nil => rfl
  | cons p d ih => by_cases hp : p.1 = k <;> simp [dmem, dlookup, hp, ih]

theorem dlookup_eq_none_of_dmem (d : Dict) (k : String) (h : dmem d k = false) :
    dlookup d k = none := by
  rw [dmem_eq_isSome] at h
  cases h2 : dlookup d k <;> simp [h2] at h ⊢

theorem dlookup_append (d e : Dict) (k : String) :
    dlookup (d ++ e) k =
      match dlookup d k with
      | some w => some w
      | none => dlookup e k := by
  induction d with
  | nil => simp [dlookup]
  | cons p d ih => by_cases hp : p.1 = k <;> simp [dlookup, hp, ih]

theorem dset_of_mem (d : Dict) (k : String) (v : Val) (h : dmem d k = true) :
    dset d k v = d.map (fun p => if p.1 = k then (p.1, v) else p) := by
  simp [dset, h]

theorem dset_of_not_mem (d : Dict) (k : String) (v : Val) (h : dmem d k = false) :
    dset d k v = d ++ [(k, v)] := by
  simp [dset, h]

theorem dlookup_map_set_self (d : Dict) (k : String) (v : Val) :
    dlookup (d.map (fun p => if p.1 = k then (p.1, v) else p)) k =
      (dlookup d k).map (fun _ => v) := by
  induction d with
  | nil => simp [dlookup]
  | cons p d ih => by_cases hp : p.1 = k <;> simp [dlookup, hp, ih]

theorem dlookup_map_set_ne (d : Dict) (k : String) (v : Val) (k2 : String)
    (hne : k ≠ k2) :
    dlookup (d.map (fun p => if p.1 = k then (p.1, v) else p)) k2 = dlookup d k2 := by
  induction d with
  | nil => simp [dlookup]
  | cons p d ih =>
      by_cases hp : p.1 = k
      · have hp2 : p.1 ≠ k2 := by rw [hp]; exact hne
        simp [dlookup, hp, hp2, ih, hne]
      · simp [dlookup, hp, ih]

theorem dlookup_dset (d : Dict) (k : String) (v : Val) (k2 : String) :
    dlookup (dset d k v) k2 = if k = k2 then some v else dlookup d k2 := by
  by_cases hkk : k = k2
  · subst hkk
    cases hm : dmem d k
    · rw [dset_of_not_mem d k v hm, dlookup_append, dlookup_eq_none_of_dmem d k hm]
      simp [dlookup]
    · rw [dset_of_mem d k v hm, dlookup_map_set_self]
      obtain ⟨w, hw⟩ := Option.isSome_iff_exists.mp (by rw [← dmem_eq_isSome]; exact hm)
      simp [hw]
  · cases hm : dmem d k
    · rw [dset_of_not_mem d k v hm, dlookup_append]
      cases h2 : dlookup d k2 <;> simp [h2, dlookup, hkk, Ne.symm hkk]
    · rw [dset_of_mem d k v hm, dlookup_map_set_ne d k v k2 hkk]
      simp [hkk]

theorem dmem_dset (d : Dict) (k : String) (v : Val) (k2 : String) :
    dmem (dset d k v) k2 = if k = k2 then true else dmem d k2 := by
  rw [dmem_eq_isSome, dmem_eq_isSome, dlookup_dset]
  by_cases hkk : k = k2
  · simp [hkk]
  · cases h2 : dlookup d k2 <;> simp [hkk, h2]

theorem dlookup_ddel (d : Dict) (k k2 : String) :
    dlookup (ddel d k) k2 = if k = k2 then none else dlookup d k2 := by
  induction d with
  | nil => by_cases hkk : k = k2 <;> simp [ddel, dlookup, hkk]
  | cons p d ih =>
      by_cases hkk : k = k2
      · subst hkk
        by_cases hp : p.1 = k <;> simp [ddel, dlookup, hp, ih]
      · by_cases hp : p.1 = k
        · have hp2 : p.1 ≠ k2 := by rw [hp]; exact hkk
          simp [ddel, dlookup, hp, hp2, ih, hkk]
        · simp [ddel, dlookup, hp, ih, hkk]

theorem dmem_ddel (d : Dict) (k k2 : String) :
    dmem (ddel d k) k2 = if k = k2 then false else dmem d k2 := by
  rw [dmem_eq_isSome, dmem_eq_isSome, dlookup_ddel]
  by_cases hkk : k = k2 <;> simp [hkk]

theorem lastVal_isSome (d : Dict) (k : String) : (lastVal d k).isSome = dmem d k := by
  induction d with
  | nil => rfl
  | cons p d ih =>
      simp only [lastVal, dmem]
      cases h2 : lastVal d k
      · by_cases hp : p.1 = k <;> simp [hp, ← ih, h2]
      · simp [← ih, h2]

theorem lastVal_eq_none_of_dmem (d : Dict) (k : String) (h : dmem d k = false) :
    lastVal d k = none := by
  have h3 := lastVal_isSome d k
  rw [h] at h3
  cases h2 : lastVal d k <;> simp [h2] at h3 ⊢

theorem lastVal_append (d e : Dict) (k : String) :
    lastVal (d ++ e) k =
      match lastVal e k with
      | some w => some w
      | none => lastVal d k := by
  induction d with
  | nil => cases h2 : lastVal e k <;> simp [lastVal, h2]
  | cons p d ih =>
      have h4 : (p :: d) ++ e = p :: (d ++ e) := rfl
      rw [h4]
      show (match lastVal (d ++ e) k with
            | some w => some w
            | none => if p.1 = k then some p.2 else none) = _
      rw [ih]
      cases h2 : lastVal e k <;> cases h3 : lastVal d k <;> simp [lastVal, h2, h3]

theorem lastVal_map_set_self (d : Dict) (k : String) (v : Val) :
    lastVal (d.map (fun p => if p.1 = k then (p.1, v) else p)) k =
      (lastVal d k).map (fun _ => v) := by
  induction d with
  | nil => simp [lastVal]
  | cons p d ih =>
      simp only [List.map_cons, lastVal]
      rw [ih]
      by_cases hp : p.1 = k <;> cases h2 : lastVal d k <;> simp [hp, h2]

theorem lastVal_map_set_ne (d : Dict) (k : String) (v : Val) (k2 : String)
    (hne : k ≠ k2) :
    lastVal (d.map (fun p => if p.1 = k then (p.1, v) else p)) k2 = lastVal d k2 := by
  induction d with
  | nil => simp [lastVal]
  | cons p d ih =>
      simp only [List.map_cons, lastVal]
      rw [ih]
      by_cases hp : p.1 = k
      · have hp2 : p.1 ≠ k2 := by rw [hp]; exact hne
        cases h2 : lastVal d k2 <;> simp [hp, hp2, h2, hne]
      · cases h2 : lastVal d k2 <;> simp [hp, h2]

theorem lastVal_dset (d : Dict) (k : String) (v : Val) (k2 : String) :
    lastVal (dset d k v) k2 = if k = k2 then some v else lastVal d k2 := by
  by_cases hkk : k = k2
  · subst hkk
    cases hm : dmem d k
    · rw [dset_of_not_mem d k v hm, lastVal_append, lastVal_eq_none_of_dmem d k hm]
      simp [lastVal]
    · rw [dset_of_mem d k v hm, lastVal_map_set_self]
      obtain ⟨w, hw⟩ := Option.isSome_iff_exists.mp (by rw [lastVal_isSome]; exact hm)
      simp [hw]
  · cases hm : dmem d k
    · rw [dset_of_not_mem d k v hm, lastVal_append]
      have h1 : lastVal [(k, v)] k2 = none := by simp [lastVal, Ne.symm hkk, hkk]
      rw [h1]
      simp [hkk]
    · rw [dset_of_mem d k v hm, lastVal_map_set_ne d k v k2 hkk]
      simp [hkk]

theorem dlookup_dupdate (d e : Dict) (k : String) :
    dlookup (dupdate d e) k =
      match lastVal e k with
      | some w => some w
      | none => dlookup d k := by
  induction e generalizing d with
  | nil => simp [dupdate, lastVal]
  | cons p e ih =>
      have hstep : dupdate d (p :: e) = dupdate (dset d p.1 p.2) e := rfl
      rw [hstep, ih]
      simp only [lastVal]
      cases h2 : lastVal e k
      · rw [dlookup_dset]
        by_cases hp : p.1 = k <;> simp [hp]
      · simp

theorem dmem_dupdate (d e : Dict) (k : String) :
    dmem (dupdate d e) k = (dmem d k || dmem e k) := by
  rw [dmem_eq_isSome, dmem_eq_isSome, dlookup_dupdate, ← lastVal_isSome]
  cases h2 : lastVal e k <;> simp [h2]

/-! ### Node-collection lemmas (Val-keyed) -/

theorem nmem_append (c c2 : NodeColl) (k : Val) :
    nmem (c ++ c2) k = (nmem c k || nmem c2 k) := by
  induction c with
  | nil => simp [nmem]
  | cons p c ih => cases hb : Val.beq p.1 k <;> simp [nmem, hb, ih]

theorem nmem_map_set (c : NodeColl) (k : Val) (v : Dict) (k2 : Val) :
    nmem (c.map (fun p => if Val.beq p.1 k then (p.1, v) else p)) k2 = nmem c k2 := by
  induction c with
  | nil => simp [nmem]
  | cons p c ih =>
      cases hb : Val.beq p.1 k <;> simp [nmem, hb, ih]

theorem nset_of_mem (c : NodeColl) (k : Val) (v : Dict) (h : nmem c k = true) :
    nset c k v = c.map (fun p => if Val.beq p.1 k then (p.1, v) else p) := by
  simp [nset, h]

theorem nset_of_not_mem (c : NodeColl) (k : Val) (v : Dict) (h : nmem c k = false) :
    nset c k v = c ++ [(k, v)] := by
  simp [nset, h]

theorem nmem_nset_self (c : NodeColl) (k : Val) (v : Dict) :
    nmem (nset c k v) k = true := by
  cases hm : nmem c k
  · rw [nset_of_not_mem c k v hm, nmem_append]
    simp [nmem, Val.beq_refl]
  · rw [nset_of_mem c k v hm, nmem_map_set]
    exact hm

theorem nmem_nset_of_mem (c : NodeColl) (k : Val) (v : Dict) (k2 : Val)
    (h : nmem c k2 = true) : nmem (nset c k v) k2 = true := by
  cases hm : nmem c k
  · rw [nset_of_not_mem c k v hm, nmem_append, h]
    rfl
  · rw [nset_of_mem c k v hm, nmem_map_set]
    exact h

theorem nlookup_map_set (c : NodeColl) (k : Val) (v : Dict) (h : nmem c k = true) :
    nlookup (c.map (fun p => if Val.beq p.1 k then (p.1, v) else p)) k = some v := by
  induction c with
  | nil => simp [nmem] at h
  | cons p c ih =>
      cases hb : Val.beq p.1 k
      · have h2 : nmem c k = true := by simpa [nmem, hb] using h
        simp [nlookup, hb, ih h2]
      · simp [nlookup, hb]

theorem nlookup_append_not_mem (c : NodeColl) (k : Val) (v : Dict)
    (h : nmem c k = false) : nlookup (c ++ [(k, v)]) k = some v := by
  induction c with
  | nil => simp [nlookup, Val.beq_refl]
  | cons p c ih =>
      have h2 : Val.beq p.1 k = false ∧ nmem c k = false := by
        simpa [nmem] using h
      simp [nlookup, h2.1, ih h2.2]

theorem nlookup_nset_self (c : NodeColl) (k : Val) (v : Dict) :
    nlookup (nset c k v) k = some v := by
  cases hm : nmem c k
  · rw [nset_of_not_mem c k v hm]
    exact nlookup_append_not_mem c k v hm
  · rw [nset_of_mem c k v hm]
    exact nlookup_map_set c k v hm

/-! ### Edge-batch lemmas (String-keyed) -/

theorem ebMem_append (b b2 : EdgeBatches) (nt : String) :
    ebMem (b ++ b2) nt = (ebMem b nt || ebMem b2 nt) := by
  induction b with
  | nil => simp [ebMem]
  | cons p b ih => by_cases hp : p.1 = nt <;> simp [ebMem, hp, ih]

theorem ebMem_ebSetdefault_self (b : EdgeBatches) (nt : String) :
    ebMem (ebSetdefault b nt) nt = true := by
  cases hm : ebMem b nt
  · simp [ebSetdefault, hm, ebMem_append, ebMem]
  · simp [ebSetdefault, hm]

theorem ebGet_of_not_mem (b : EdgeBatches) (nt : String) (h : ebMem b nt = false) :
    ebGet b nt = [] := by
  induction b with
  | nil => rfl
  | cons p b ih =>
      have h2 : ¬(p.1 = nt) ∧ ebMem b nt = false := by
        by_cases hp : p.1 = nt <;> simp [ebMem, hp] at h ⊢ <;> exact h
      simp [ebGet, h2.1, ih h2.2]

theorem ebGet_append_not_mem (b : EdgeBatches) (nt : String) (b2 : EdgeBatches)
    (h : ebMem b nt = false) : ebGet (b ++ b2) nt = ebGet b2 nt := by
  induction b with
  | nil => simp [ebGet]
  | cons p b ih =>
      have h2 : ¬(p.1 = nt) ∧ ebMem b nt = false := by
        by_cases hp : p.1 = nt <;> simp [ebMem, hp] at h ⊢ <;> exact h
      simp [ebGet, h2.1, ih h2.2]

theorem ebGet_ebSetdefault_self (b : EdgeBatches) (nt : String) :
    ebGet (ebSetdefault b nt) nt = ebGet b nt := by
  cases hm : ebMem b nt
  · rw [ebGet_of_not_mem b nt hm]
    simp only [ebSetdefault, hm, Bool.false_eq_true, if_false]
    rw [ebGet_append_not_mem b nt _ hm]
    simp [ebGet]
  · simp [ebSetdefault, hm]

theorem ebMem_ebAppend (b : EdgeBatches) (nt2 : String) (e : Dict) (nt : String) :
    ebMem (ebAppend b nt2 e) nt = ebMem b nt := by
  induction b with
  | nil => rfl
  | cons p b ih =>
      simp only [ebAppend, List.map_cons] at ih ⊢
      by_cases hp : p.1 = nt2 <;> simp [ebMem, hp, ih]

theorem ebGet_ebAppend_self (b : EdgeBatches) (nt : String) (e : Dict)
    (h : ebMem b nt = true) : ebGet (ebAppend b nt e) nt = ebGet b nt ++ [e] := by
  induction b with
  | nil => simp [ebMem] at h
  | cons p b ih =>
      simp only [ebAppend, List.map_cons] at ih ⊢
      by_cases hp : p.1 = nt
      · simp [ebGet, hp]
      · have h2 : ebMem b nt = true := by simpa [ebMem, hp] using h
        simp [ebGet, hp, ih h2]

/-! ### Behaviour of the resolver loops -/

theorem eventStep_str (node_type : String) (node : Val) (st : SemState) (s : String) :
    eventStep node_type node st (Val.str s) =
      ({ st with relations.hasEvent := (ebAppend st.relations.hasEvent node_type
           [("from", node), ("to", Val.str (if pyStartsWith s "event" then s else "event." ++ s))]) },
       none) := rfl

theorem relate2event_loop (node_type : String) (node : Val) (ids : List String) :
    ∀ st : SemState, ebMem st.relations.hasEvent node_type = true →
      (foldE (eventStep node_type node) st (ids.map Val.str)).2 = none ∧
      ebGet (foldE (eventStep node_type node) st (ids.map Val.str)).1.relations.hasEvent node_type
        = ebGet st.relations.hasEvent node_type
          ++ ids.map (fun s =>
               [("from", node), ("to", Val.str (if pyStartsWith s "event" then s else "event." ++ s))]) := by
  induction ids with
  | nil => intro st _; simp [foldE]
  | cons s ids ih =>
      intro st h
      have hmem2 : ebMem (ebAppend st.relations.hasEvent node_type
          [("from", node), ("to", Val.str (if pyStartsWith s "event" then s else "event." ++ s))]) node_type = true := by
        rw [ebMem_ebAppend]; exact h
      obtain ⟨ha, hb⟩ := ih { st with relations.hasEvent := (ebAppend st.relations.hasEvent node_type
          [("from", node), ("to", Val.str (if pyStartsWith s "event" then s else "event." ++ s))]) } hmem2
      have hfold : foldE (eventStep node_type node) st ((s :: ids).map Val.str)
          = foldE (eventStep node_type node)
              { st with relations.hasEvent := (ebAppend st.relations.hasEvent node_type
                  [("from", node), ("to", Val.str (if pyStartsWith s "event" then s else "event." ++ s))]) }
              (ids.map Val.str) := by
        simp only [List.map_cons, foldE, eventStep_str]
      rw [hfold]
      refine ⟨ha, ?_⟩
      rw [hb, ebGet_ebAppend_self _ _ _ h]
      simp

theorem assocStep_str (node_type : String) (node : Val) (st : SemState) (s : String) :
    assocStep node_type node st (Val.str s) =
      ({ st with relations.associatedWith := (ebAppend st.relations.associatedWith node_type
           [("from", node), ("to", Val.str (if pyStartsWith s "entity" then s else "entity." ++ s))]) },
       none) := rfl

theorem assoc_loop (node_type : String) (node : Val) (ids : List String) :
    ∀ st : SemState, ebMem st.relations.associatedWith node_type = true →
      (foldE (assocStep node_type node) st (ids.map Val.str)).2 = none ∧
      ebGet (foldE (assocStep node_type node) st (ids.map Val.str)).1.relations.associatedWith node_type
        = ebGet st.relations.associatedWith node_type
          ++ ids.map (fun s =>
               [("from", node), ("to", Val.str (if pyStartsWith s "entity" then s else "entity." ++ s))]) := by
  induction ids with
  | nil => intro st _; simp [foldE]
  | cons s ids ih =>
      intro st h
      have hmem2 : ebMem (ebAppend st.relations.associatedWith node_type
          [("from", node), ("to", Val.str (if pyStartsWith s "entity" then s else "entity." ++ s))]) node_type = true := by
        rw [ebMem_ebAppend]; exact h
      obtain ⟨ha, hb⟩ := ih { st with relations.associatedWith := (ebAppend st.relations.associatedWith node_type
          [("from", node), ("to", Val.str (if pyStartsWith s "entity" then s else "entity." ++ s))]) } hmem2
      have hfold : foldE (assocStep node_type node) st ((s :: ids).map Val.str)
          = foldE (assocStep node_type node)
              { st with relations.associatedWith := (ebAppend st.relations.associatedWith node_type
                  [("from", node), ("to", Val.str (if pyStartsWith s "entity" then s else "entity." ++ s))]) }
              (ids.map Val.str) := by
        simp only [List.map_cons, foldE, assocStep_str]
      rw [hfold]
      refine ⟨ha, ?_⟩
      rw [hb, ebGet_ebAppend_self _ _ _ h]
      simp

theorem attrStep_nmem_mono (node_type : String) (node : Val) (st : SemState) (a : Val)
    (k : Val) (h : nmem st.nodes.attributeNodes k = true) :
    nmem (attrStep node_type node st a).1.nodes.attributeNodes k = true := by
  unfold attrStep
  cases hres : attrDescResult node a with
  | error e => exact h
  | ok pr =>
      obtain ⟨edge, ins⟩ := pr
      cases ins with
      | none => exact h
      | some ki => exact nmem_nset_of_mem _ _ _ _ h

theorem foldE_attr_nmem_mono (node_type : String) (node : Val) (attrs : List Val) :
    ∀ (st : SemState) (k : Val), nmem st.nodes.attributeNodes k = true →
      nmem (foldE (attrStep node_type node) st attrs).1.nodes.attributeNodes k = true := by
  induction attrs with
  | nil => intro st k h; exact h
  | cons a attrs ih =>
      intro st k h
      have hmono := attrStep_nmem_mono node_type node st a k h
      cases hstep : attrStep node_type node st a with
      | mk st2 err =>
          rw [hstep] at hmono
          cases err with
          | none =>
              have h3 := ih st2 k hmono
              simp only [foldE, hstep]
              exact h3
          | some e =>
              simp only [foldE, hstep]
              exact hmono


theorem relate2attribute_loop (node_type : String) (node : Val) (attrs : List Val) :
    ∀ st : SemState, (foldE (attrStep node_type node) st attrs).2 = none →
      ebMem st.relations.hasAttribute node_type = true →
      (ebGet (foldE (attrStep node_type node) st attrs).1.relations.hasAttribute node_type
        = ebGet st.relations.hasAttribute node_type ++ attrs.map (descEdgeOf node))
      ∧ (∀ a ∈ attrs, ∀ (k : Val) (fields : Dict), descIns node a = some (k, fields) →
          nmem (foldE (attrStep node_type node) st attrs).1.nodes.attributeNodes k = true) := by
  induction attrs with
  | nil =>
      intro st _ _
      refine ⟨by simp [foldE], ?_⟩
      intro a ha
      simp at ha
  | cons a attrs ih =>
      intro st hsucc hmem
      cases hres : attrDescResult node a with
      | error e =>
          exfalso
          have hbad : (foldE (attrStep node_type node) st (a :: attrs)).2 = some e := by
            simp only [foldE, attrStep, hres]
          rw [hsucc] at hbad
          exact Option.noConfusion hbad
      | ok pr =>
          obtain ⟨edge, ins⟩ := pr
          have hedge : descEdgeOf node a = edge := by simp [descEdgeOf, hres]
          have hins : descIns node a = ins := by simp [descIns, hres]
          cases ins with
          | none =>
              have hstep : attrStep node_type node st a =
                  ({ st with relations.hasAttribute := ebAppend st.relations.hasAttribute node_type edge },
                   none) := by
                simp only [attrStep, hres]
              have hfold : foldE (attrStep node_type node) st (a :: attrs)
                  = foldE (attrStep node_type node)
                      { st with relations.hasAttribute := ebAppend st.relations.hasAttribute node_type edge }
                      attrs := by
                simp only [foldE, hstep]
              rw [hfold] at hsucc ⊢
              have hmem2 : ebMem ({ st with relations.hasAttribute := ebAppend st.relations.hasAttribute node_type edge } : SemState).relations.hasAttribute node_type = true := by
                show ebMem (ebAppend st.relations.hasAttribute node_type edge) node_type = true
                rw [ebMem_ebAppend]; exact hmem
              obtain ⟨h1, h2⟩ := ih _ hsucc hmem2
              constructor
              · rw [h1]
                show ebGet (ebAppend st.relations.hasAttribute node_type edge) node_type ++ _ = _
                rw [ebGet_ebAppend_self _ _ _ hmem]
                simp [hedge]
              · intro x hx k fields hinsx
                rcases List.mem_cons.mp hx with hx1 | hx2
                · subst hx1
                  rw [hinsx] at hins
                  exact Option.noConfusion hins
                · exact h2 x hx2 k fields hinsx
          | some ki =>
              obtain ⟨k2, f2⟩ := ki
              have hstep : attrStep node_type node st a =
                  ({ st with
                      nodes.attributeNodes := nset st.nodes.attributeNodes k2 f2,
                      relations.hasAttribute := ebAppend st.relations.hasAttribute node_type edge },
                   none) := by
                simp only [attrStep, hres]
              have hfold : foldE (attrStep node_type node) st (a :: attrs)
                  = foldE (attrStep node_type node)
                      { st with
                          nodes.attributeNodes := nset st.nodes.attributeNodes k2 f2,
                          relations.hasAttribute := ebAppend st.relations.hasAttribute node_type edge }
                      attrs := by
                simp only [foldE, hstep]
              rw [hfold] at hsucc ⊢
              have hmem2 : ebMem ({ st with
                  nodes.attributeNodes := nset st.nodes.attributeNodes k2 f2,
                  relations.hasAttribute := ebAppend st.relations.hasAttribute node_type edge } : SemState).relations.hasAttribute node_type = true := by
                show ebMem (ebAppend st.relations.hasAttribute node_type edge) node_type = true
                rw [ebMem_ebAppend]; exact hmem
              obtain ⟨h1, h2⟩ := ih _ hsucc hmem2
              constructor
              · rw [h1]
                show ebGet (ebAppend st.relations.hasAttribute node_type edge) node_type ++ _ = _
                rw [ebGet_ebAppend_self _ _ _ hmem]
                simp [hedge]
              · intro x hx k fields hinsx
                rcases List.mem_cons.mp hx with hx1 | hx2
                · subst hx1
                  rw [hinsx] at hins
                  have hk : k = k2 := by
                    injection hins with hpair
                    exact congrArg Prod.fst hpair
                  subst hk
                  apply foldE_attr_nmem_mono
                  show nmem (nset st.nodes.attributeNodes k f2) k = true
                  exact nmem_nset_self _ _ _
                · exact h2 x hx2 k fields hinsx


/-! ### Characterization of single-descriptor processing -/

theorem attrDescResult_ref_cases (node : Val) (data : Dict) (refv : Val)
    (href : dlookup data "ref" = some refv) :
    (∃ dataF : Dict,
        attrDescResult node (Val.dict data)
          = .ok (dupdate (dset [("from", node)] "to" refv) dataF, none) ∧
        (∀ k2, k2 ≠ "examples" →
          lastVal dataF k2 = lastVal (flattenRequirement (ddel data "ref")) k2) ∧
        (∀ k2, k2 ≠ "examples" →
          dmem dataF k2 = dmem (flattenRequirement (ddel data "ref")) k2))
    ∨ (∃ msg, attrDescResult node (Val.dict data) = .error msg) := by
  rcases hex : dlookup (flattenRequirement (ddel data "ref")) "examples" with _ | ex
  · left
    refine ⟨flattenRequirement (ddel data "ref"), ?_, fun _ _ => rfl, fun _ _ => rfl⟩
    simp only [attrDescResult, href, hex]
  · rcases hj : examplesJoin ex with _ | sj
    · right
      refine ⟨"TypeError: examples value is not iterable", ?_⟩
      simp only [attrDescResult, href, hex, hj]
    · left
      refine ⟨dset (flattenRequirement (ddel data "ref")) "examples" (Val.str sj), ?_, ?_, ?_⟩
      · simp only [attrDescResult, href, hex, hj]
      · intro k2 hk2
        rw [lastVal_dset]
        simp [Ne.symm hk2]
      · intro k2 hk2
        rw [dmem_dset]
        simp [Ne.symm hk2]

theorem descIns_to (node : Val) (a : Val) (k : Val) (fields : Dict)
    (h : descIns node a = some (k, fields)) :
    dlookup (descEdgeOf node a) "to" = some k := by
  cases a with
  | str s => simp [descIns, attrDescResult] at h
  | int n => simp [descIns, attrDescResult] at h
  | bool b => simp [descIns, attrDescResult] at h
  | list xs => simp [descIns, attrDescResult] at h
  | dict data =>
      cases href : dlookup data "ref" with
      | some refv =>
          exfalso
          rcases attrDescResult_ref_cases node data refv href with ⟨dataF, heq, _, _⟩ | ⟨msg, herr⟩
          · rw [descIns, heq] at h
            exact Option.noConfusion h
          · rw [descIns, herr] at h
            exact Option.noConfusion h
      | none =>
          cases hid : dlookup data "id" with
          | none => simp [descIns, attrDescResult, href, hid] at h
          | some nm =>
              cases hty : dmem data "type"
              · simp [descIns, attrDescResult, href, hid, hty] at h
              · have h2 : descIns node (Val.dict data) = some (nm, ddel data "type") := by
                  simp [descIns, attrDescResult, href, hid, hty]
                have hedge : descEdgeOf node (Val.dict data) = dset [("from", node)] "to" nm := by
                  simp [descEdgeOf, attrDescResult, href, hid, hty]
                have hk : nm = k := by
                  rw [h2] at h
                  injection h with hp
                  exact congrArg Prod.fst hp
                rw [hedge, dlookup_dset, if_pos rfl, hk]

theorem flattenRequirement_cond (data req : Dict) (c : Val)
    (hreq : dlookup data "requirement_level" = some (Val.dict req))
    (hc : dlookup req "conditionally_required" = some c)
    (hnr : dmem req "recommended" = false) :
    flattenRequirement data
      = dset (dset data "condition" c) "requirement_level" (Val.str "conditionally_required") := by
  have hnr2 : dlookup req "recommended" = none := dlookup_eq_none_of_dmem _ _ hnr
  simp only [flattenRequirement, hreq, hc, hnr2]

theorem dmem_flattenRequirement (data : Dict) (k2 : String)
    (h1 : k2 ≠ "condition") (h2 : k2 ≠ "requirement_level") :
    dmem (flattenRequirement data) k2 = dmem data k2 := by
  have e1 : ("condition" : String) ≠ k2 := Ne.symm h1
  have e2 : ("requirement_level" : String) ≠ k2 := Ne.symm h2
  cases hr : dlookup data "requirement_level" with
  | none => simp [flattenRequirement, hr]
  | some v =>
      cases v with
      | str a => simp [flattenRequirement, hr]
      | int n => simp [flattenRequirement, hr]
      | bool b => simp [flattenRequirement, hr]
      | list xs => simp [flattenRequirement, hr]
      | dict req =>
          simp only [flattenRequirement, hr]
          cases hc : dlookup req "conditionally_required" <;>
            cases hrec : dlookup req "recommended" <;>
            simp [dmem_dset, e1, e2]


/-! ### Claims -/

/-- C9: when the root path is not an existing directory, ingestion logs the
missing path and returns without raising: the node and edge collections are
exactly as they were before the call, so downstream phases see an empty
result on a fresh instance. -/
theorem c9_missing_root_noop (st : SemState) (files : List DocFile) :
    import_conventions_from_dir st false files = st := rfl

/-- C3 counterexample: the identifier `entityish` does not start with the
namespace prefix `entity.`, so the claim requires `to = entity.entityish`,
but the resolver tests the bare word `entity` and leaves it unchanged. -/
theorem c3_dotless_namespace_cex :
    ("entityish" : String) ≠ "entity." ++ "entityish"
    ∧ pyStartsWith "entityish" "entity." = false
    ∧ ebGet ((relate2associated_entity resetState "Metric" (Val.str "m")
          [Val.str "entityish"]).1).relations.associatedWith "Metric"
        = [[("from", Val.str "m"), ("to", Val.str "entityish")]] := by
  exact ⟨by decide, rfl, rfl⟩

/-- C3 as amended: both resolvers emit one edge per identifier, in order,
raising nothing; an identifier is left unchanged exactly when it starts
with the bare word `event` / `entity` (no trailing dot), and gets
`event.` / `entity.` prepended otherwise. -/
theorem c3_dotless_namespace (st : SemState) (node_type : String) (node : Val)
    (ids : List String) :
    (relate2event st node_type node (ids.map Val.str)).2 = none
    ∧ ebGet (relate2event st node_type node (ids.map Val.str)).1.relations.hasEvent node_type
        = ebGet st.relations.hasEvent node_type
          ++ ids.map (fun s =>
               [("from", node), ("to", Val.str (if pyStartsWith s "event" then s else "event." ++ s))])
    ∧ (relate2associated_entity st node_type node (ids.map Val.str)).2 = none
    ∧ ebGet (relate2associated_entity st node_type node (ids.map Val.str)).1.relations.associatedWith node_type
        = ebGet st.relations.associatedWith node_type
          ++ ids.map (fun s =>
               [("from", node), ("to", Val.str (if pyStartsWith s "entity" then s else "entity." ++ s))]) := by
  obtain ⟨h1, h2⟩ := relate2event_loop node_type node ids
      { st with relations.hasEvent := ebSetdefault st.relations.hasEvent node_type }
      (ebMem_ebSetdefault_self _ _)
  obtain ⟨h3, h4⟩ := assoc_loop node_type node ids
      { st with relations.associatedWith := ebSetdefault st.relations.associatedWith node_type }
      (ebMem_ebSetdefault_self _ _)
  refine ⟨h1, ?_, h3, ?_⟩
  · show ebGet (foldE (eventStep node_type node)
        { st with relations.hasEvent := ebSetdefault st.relations.hasEvent node_type }
        (ids.map Val.str)).1.relations.hasEvent node_type = _
    rw [h2]
    show ebGet (ebSetdefault st.relations.hasEvent node_type) node_type ++ _ = _
    rw [ebGet_ebSetdefault_self]
  · show ebGet (foldE (assocStep node_type node)
        { st with relations.associatedWith := ebSetdefault st.relations.associatedWith node_type }
        (ids.map Val.str)).1.relations.associatedWith node_type = _
    rw [h4]
    show ebGet (ebSetdefault st.relations.associatedWith node_type) node_type ++ _ = _
    rw [ebGet_ebSetdefault_self]

/-- C2: the claim is right and the code is wrong.  The in-repo Registry
insert `add_attribute` rejects a duplicate id and keeps the first
definition, but `relate2attribute` never calls it: an inline descriptor is
assigned directly into the Attribute collection, so a second definition
with the same id silently overwrites the first and no conflict is
reported, contradicting the Registry contract the claim states. -/
theorem c2_registry_bypass_bug :
    (let r := relate2attribute resetState "Metric" (Val.str "m")
        [Val.dict [("id", Val.str "a"), ("type", Val.str "string"), ("brief", Val.str "first")],
         Val.dict [("id", Val.str "a"), ("type", Val.str "string"), ("brief", Val.str "second")]]
     r.2 = none
     ∧ nlookup r.1.nodes.attributeNodes (Val.str "a")
         = some [("id", Val.str "a"), ("brief", Val.str "second")])
    ∧ (let r2 := add_attribute
          ((add_attribute resetState [("id", Val.str "a"), ("brief", Val.str "first")]).1)
          [("id", Val.str "a"), ("brief", Val.str "second")]
       r2.2 = none
       ∧ nlookup r2.1.nodes.attributeNodes (Val.str "a")
           = some [("id", Val.str "a"), ("brief", Val.str "first")]) := by
  exact ⟨⟨rfl, rfl⟩, ⟨rfl, rfl⟩⟩

/-- C7 counterexample: a malformed inline descriptor (no `id`) in the first
entry of a document raises KeyError out of `add_groups`, so the second,
well-formed entry of the same document is never processed - the failure is
not isolated to the offending item as the claim states. -/
theorem c7_malformed_descriptor_aborts_document_cex :
    (let r := add_groups resetState
        [("groups", Val.list
          [Val.dict [("type", Val.str "metric"), ("id", Val.str "b"),
                     ("attributes", Val.list [Val.dict [("brief", Val.str "x")]])],
           Val.dict [("type", Val.str "metric"), ("id", Val.str "g")]])]
     r.2 = some "KeyError: id"
     ∧ nmem r.1.nodes.metric (Val.str "g") = false
     ∧ nmem r.1.nodes.metric (Val.str "b") = true) := by
  exact ⟨rfl, rfl, rfl⟩

/-- C7 as amended: isolation holds at file granularity, not entry
granularity.  The file loop always continues past a failing file (the
exception is caught per file, keeping the state built so far), and an
entry of unknown kind is dropped without an exception; but a malformed
descriptor aborts the remaining entries of its own document. -/
theorem c7_error_isolation (st : SemState) (pre post : List DocFile) (bad : DocFile)
    (sec : Dict) (hunk : nodetype2node sec = none) :
    import_conventions_from_dir st true (pre ++ bad :: post)
      = List.foldl processFile (processFile (List.foldl processFile st pre) bad) post
    ∧ addGroupStep st (Val.dict sec) = (st, none) := by
  constructor
  · show (pre ++ bad :: post).foldl processFile st = _
    rw [List.foldl_append]
    rfl
  · simp only [addGroupStep, hunk]

/-- C7 witness for the amended theorem at a concrete run. -/
theorem c7_error_isolation_witness :
    import_conventions_from_dir resetState true
        ([DocFile.parseError] ++ DocFile.parsed (Val.str "junk") :: [DocFile.parseError])
      = List.foldl processFile
          (processFile (List.foldl processFile resetState [DocFile.parseError])
            (DocFile.parsed (Val.str "junk"))) [DocFile.parseError]
    ∧ addGroupStep resetState (Val.dict [("type", Val.str "mystery"), ("id", Val.str "x")])
      = (resetState, none) :=
  c7_error_isolation resetState [DocFile.parseError] [DocFile.parseError]
    (DocFile.parsed (Val.str "junk"))
    [("type", Val.str "mystery"), ("id", Val.str "x")] (by rfl)

/-- C8 counterexample: after ingesting one metric entry with no attributes
and no events, the (Metric, HasAttribute) and (Metric, HasEvent) batches
are registered but empty, yet `persist_relations` still issues a bulk-load
call for each - the claim says no load call is issued for an empty
combination. -/
theorem c8_empty_combination_load_cex :
    (let st := (add_groups resetState
        [("groups", Val.list [Val.dict [("type", Val.str "metric"), ("id", Val.str "m")]])]).1
     ebGet st.relations.hasAttribute "Metric" = []
     ∧ ebGet st.relations.hasEvent "Metric" = []
     ∧ (persist_relations st).2
         = [CopyStmt.rel "HasAttribute" "rel_Metric_HasAttribute.json" "Metric" (some "Attribute"),
            CopyStmt.rel "HasEvent" "rel_Metric_HasEvent.json" "Metric" (some "Event")]) := by
  exact ⟨rfl, rfl, rfl⟩


/-- C8 as amended: persistence writes exactly one batch file and issues
exactly one COPY per node type (the six fixed types, values only, in
insertion order), and exactly one batch file and COPY per registered
(source-type, edge-type) entry of `self.relations` - including entries
whose edge list is empty, which are registered as soon as the
corresponding resolver ran for that source type. -/
theorem c8_persistence_shape (st : SemState) :
    (persist_nodes st).1
      = [("Metrics.json", st.nodes.metric.map (fun q => q.2)),
         ("Entitys.json", st.nodes.entity.map (fun q => q.2)),
         ("Spans.json", st.nodes.span.map (fun q => q.2)),
         ("AttributeGroups.json", st.nodes.attributeGroup.map (fun q => q.2)),
         ("Events.json", st.nodes.event.map (fun q => q.2)),
         ("Attributes.json", st.nodes.attributeNodes.map (fun q => q.2))]
    ∧ (persist_nodes st).2
      = [CopyStmt.node "Metric" "Metrics.json" true,
         CopyStmt.node "Entity" "Entitys.json" true,
         CopyStmt.node "Span" "Spans.json" true,
         CopyStmt.node "AttributeGroup" "AttributeGroups.json" true,
         CopyStmt.node "Event" "Events.json" true,
         CopyStmt.node "Attribute" "Attributes.json" true]
    ∧ (persist_relations st).1
      = st.relations.hasAttribute.map (fun p => ("rel_" ++ p.1 ++ "_HasAttribute.json", p.2))
        ++ (st.relations.hasEvent.map (fun p => ("rel_" ++ p.1 ++ "_HasEvent.json", p.2))
            ++ st.relations.associatedWith.map (fun p => ("rel_" ++ p.1 ++ "_AssociatedWith.json", p.2)))
    ∧ (persist_relations st).2
      = st.relations.hasAttribute.map (fun p =>
          CopyStmt.rel "HasAttribute" ("rel_" ++ p.1 ++ "_HasAttribute.json") p.1 (some "Attribute"))
        ++ (st.relations.hasEvent.map (fun p =>
              CopyStmt.rel "HasEvent" ("rel_" ++ p.1 ++ "_HasEvent.json") p.1 (some "Event"))
            ++ st.relations.associatedWith.map (fun p =>
              CopyStmt.rel "AssociatedWith" ("rel_" ++ p.1 ++ "_AssociatedWith.json") p.1 (some "Entity"))) := by
  refine ⟨rfl, rfl, ?_, ?_⟩
  · simp only [persist_relations, relPairs, Relations.items, List.map_cons, List.map_nil,
      List.flatten_cons, List.flatten_nil, List.map_append, List.map_map, List.append_nil]
    congr 1
    · apply List.map_congr_left
      intro p _
      simp only [Function.comp_apply, String.append_assoc]
      rfl
    · congr 1
      · apply List.map_congr_left
        intro p _
        simp only [Function.comp_apply, String.append_assoc]
        rfl
      · apply List.map_congr_left
        intro p _
        simp only [Function.comp_apply, String.append_assoc]
        rfl
  · simp only [persist_relations, relPairs, Relations.items, List.map_cons, List.map_nil,
      List.flatten_cons, List.flatten_nil, List.map_append, List.map_map, List.append_nil]
    congr 1
    · apply List.map_congr_left
      intro p _
      simp only [Function.comp_apply, String.append_assoc]
      rfl
    · congr 1
      · apply List.map_congr_left
        intro p _
        simp only [Function.comp_apply, String.append_assoc]
        rfl
      · apply List.map_congr_left
        intro p _
        simp only [Function.comp_apply, String.append_assoc]
        rfl


/-- C1 counterexample: two metric entries with the same id `m` in one
`groups` list.  The claim requires the first fields to be retained
(`brief = first`), the duplicate to be rejected, and no edges derived from
the second occurrence; the code instead overwrites the stored node (its
`brief` is now `second`, not `first`) and appends the HasAttribute edge
produced by the second occurrence, raising nothing.  Only scalar fields of
the stored node are asserted: its nested descriptor dicts are further
mutated in place by the resolver in Python, which the snapshot-storing
model does not track. -/
theorem c1_duplicate_overwritten_cex :
    (let r := add_groups resetState
        [("groups", Val.list
          [Val.dict [("type", Val.str "metric"), ("id", Val.str "m"), ("brief", Val.str "first")],
           Val.dict [("type", Val.str "metric"), ("id", Val.str "m"), ("brief", Val.str "second"),
                     ("attributes", Val.list [Val.dict [("ref", Val.str "r")]])]])]
     r.2 = none
     ∧ dlookup ((nlookup r.1.nodes.metric (Val.str "m")).getD []) "brief"
         = some (Val.str "second")
     ∧ Val.str "second" ≠ Val.str "first"
     ∧ ebGet r.1.relations.hasAttribute "Metric"
         = [[("from", Val.str "m"), ("to", Val.str "r")]]) := by
  exact ⟨rfl, rfl, by simp, rfl⟩

/-- C1 as amended: when a metric entry arrives whose id is already present
in the Metric collection, the entry is processed exactly like a fresh one:
the stored node is silently replaced by the new entry (a node for the id
is present, its `brief` is the new value, the `type` discriminator is
gone), the HasAttribute edge of the new occurrence is appended to the
batch, and no exception is raised and no rejection happens.  Only scalar
fields of the stored node are asserted, because in Python the resolver
then mutates the nested descriptor dicts of the stored section in place. -/
theorem c1_duplicate_overwrite (st : SemState) (k rv b : Val)
    (hmem : nmem st.nodes.metric k = true) :
    (let sec := Val.dict [("type", Val.str "metric"), ("id", k), ("brief", b),
                          ("attributes", Val.list [Val.dict [("ref", rv)]])]
     let r := addGroupStep st sec
     r.2 = none
     ∧ (nlookup r.1.nodes.metric k).isSome = true
     ∧ dlookup ((nlookup r.1.nodes.metric k).getD []) "brief" = some b
     ∧ dmem ((nlookup r.1.nodes.metric k).getD []) "type" = false
     ∧ ebGet r.1.relations.hasAttribute "Metric"
         = ebGet st.relations.hasAttribute "Metric" ++ [[("from", k), ("to", rv)]]) := by
  have hn : nlookup (nset st.nodes.metric k
      [("id", k), ("brief", b), ("attributes", Val.list [Val.dict [("ref", rv)]])]) k
      = some [("id", k), ("brief", b), ("attributes", Val.list [Val.dict [("ref", rv)]])] :=
    nlookup_nset_self _ _ _
  refine ⟨rfl, ?_, ?_, ?_, ?_⟩
  · show (nlookup (nset st.nodes.metric k
        [("id", k), ("brief", b), ("attributes", Val.list [Val.dict [("ref", rv)]])]) k).isSome = true
    rw [hn]
    rfl
  · show dlookup ((nlookup (nset st.nodes.metric k
        [("id", k), ("brief", b), ("attributes", Val.list [Val.dict [("ref", rv)]])]) k).getD []) "brief"
        = some b
    rw [hn]
    rfl
  · show dmem ((nlookup (nset st.nodes.metric k
        [("id", k), ("brief", b), ("attributes", Val.list [Val.dict [("ref", rv)]])]) k).getD []) "type"
        = false
    rw [hn]
    rfl
  · show ebGet (ebAppend (ebSetdefault st.relations.hasAttribute "Metric") "Metric"
        [("from", k), ("to", rv)]) "Metric" = _
    rw [ebGet_ebAppend_self _ _ _ (ebMem_ebSetdefault_self _ _), ebGet_ebSetdefault_self]

/-- C1 witness: the amended theorem applied after one entry with id `m`
has already been ingested. -/
theorem c1_duplicate_overwrite_witness :
    (let st := (addGroupStep resetState
        (Val.dict [("type", Val.str "metric"), ("id", Val.str "m"), ("brief", Val.str "zero")])).1
     let sec := Val.dict [("type", Val.str "metric"), ("id", Val.str "m"),
                          ("brief", Val.str "second"),
                          ("attributes", Val.list [Val.dict [("ref", Val.str "r")]])]
     let r := addGroupStep st sec
     r.2 = none
     ∧ (nlookup r.1.nodes.metric (Val.str "m")).isSome = true
     ∧ dlookup ((nlookup r.1.nodes.metric (Val.str "m")).getD []) "brief"
         = some (Val.str "second")
     ∧ dmem ((nlookup r.1.nodes.metric (Val.str "m")).getD []) "type" = false
     ∧ ebGet r.1.relations.hasAttribute "Metric"
         = ebGet ((addGroupStep resetState
              (Val.dict [("type", Val.str "metric"), ("id", Val.str "m"),
                         ("brief", Val.str "zero")])).1).relations.hasAttribute "Metric"
           ++ [[("from", Val.str "m"), ("to", Val.str "r")]]) :=
  c1_duplicate_overwrite
    ((addGroupStep resetState
        (Val.dict [("type", Val.str "metric"), ("id", Val.str "m"), ("brief", Val.str "zero")])).1)
    (Val.str "m") (Val.str "r") (Val.str "second") (by rfl)


/-- C4 counterexample: a compound requirement level containing BOTH
`conditionally_required` and `recommended`.  The claim requires the edge
to carry `requirement_level = conditionally_required`, but the second,
independent `recommended` check runs afterwards and overwrites both
fields. -/
theorem c4_recommended_wins_cex :
    attrDescResult (Val.str "m")
        (Val.dict [("ref", Val.str "r"),
                   ("requirement_level",
                    Val.dict [("conditionally_required", Val.str "cc"),
                              ("recommended", Val.str "rc")])])
      = .ok ([("from", Val.str "m"), ("to", Val.str "r"),
              ("requirement_level", Val.str "recommended"), ("condition", Val.str "rc")], none)
    ∧ Val.str "recommended" ≠ Val.str "conditionally_required" := by
  exact ⟨rfl, by simp⟩

/-- C4 as amended: for a reference-shape descriptor whose compound
`requirement_level` contains `conditionally_required` and does NOT contain
`recommended` (when both are present, the recommended rule runs second and
wins), every produced edge carries the literal `conditionally_required`
and the sub-value as `condition`. -/
theorem c4_conditionally_required_flatten (node : Val) (data req : Dict) (refv c : Val)
    (edge : Dict) (o : Option (Val × Dict))
    (href : dlookup data "ref" = some refv)
    (hreq : dlookup data "requirement_level" = some (Val.dict req))
    (hc : dlookup req "conditionally_required" = some c)
    (hnr : dmem req "recommended" = false)
    (hok : attrDescResult node (Val.dict data) = .ok (edge, o)) :
    dlookup edge "requirement_level" = some (Val.str "conditionally_required")
    ∧ dlookup edge "condition" = some c := by
  rcases attrDescResult_ref_cases node data refv href with ⟨dataF, heq, hlast, hdm⟩ | ⟨msg, herr⟩
  · rw [heq] at hok
    have hedge : edge = dupdate (dset [("from", node)] "to" refv) dataF := by
      injection hok with hp
      exact (congrArg Prod.fst hp).symm
    have hreq2 : dlookup (ddel data "ref") "requirement_level" = some (Val.dict req) := by
      rw [dlookup_ddel, if_neg (by decide)]
      exact hreq
    have hflat := flattenRequirement_cond (ddel data "ref") req c hreq2 hc hnr
    subst hedge
    constructor
    · rw [dlookup_dupdate]
      have h5 : lastVal dataF "requirement_level" = some (Val.str "conditionally_required") := by
        rw [hlast _ (by decide), hflat, lastVal_dset, if_pos rfl]
      rw [h5]
    · rw [dlookup_dupdate]
      have h6 : lastVal dataF "condition" = some c := by
        rw [hlast _ (by decide), hflat, lastVal_dset, if_neg (by decide),
            lastVal_dset, if_pos rfl]
      rw [h6]
  · rw [herr] at hok
    exact Except.noConfusion hok

/-- C4 witness: the amended theorem at a concrete descriptor. -/
theorem c4_conditionally_required_flatten_witness :
    dlookup [("from", Val.str "m"), ("to", Val.str "r"),
             ("requirement_level", Val.str "conditionally_required"),
             ("condition", Val.str "when x")] "requirement_level"
      = some (Val.str "conditionally_required")
    ∧ dlookup [("from", Val.str "m"), ("to", Val.str "r"),
               ("requirement_level", Val.str "conditionally_required"),
               ("condition", Val.str "when x")] "condition"
      = some (Val.str "when x") :=
  c4_conditionally_required_flatten (Val.str "m")
    [("ref", Val.str "r"),
     ("requirement_level", Val.dict [("conditionally_required", Val.str "when x")])]
    [("conditionally_required", Val.str "when x")]
    (Val.str "r") (Val.str "when x")
    [("from", Val.str "m"), ("to", Val.str "r"),
     ("requirement_level", Val.str "conditionally_required"),
     ("condition", Val.str "when x")]
    none (by rfl) (by rfl) (by rfl) (by rfl) (by rfl)

/-- C5 counterexample: a reference descriptor that also carries a literal
`to` field.  The remaining fields are copied onto the edge after `to` is
set from `ref`, so the copy overwrites the endpoint and the edge points at
`x`, not at the `ref` value `r` as the claim requires. -/
theorem c5_to_field_override_cex :
    attrDescResult (Val.str "m") (Val.dict [("ref", Val.str "r"), ("to", Val.str "x")])
      = .ok ([("from", Val.str "m"), ("to", Val.str "x")], none)
    ∧ Val.str "x" ≠ Val.str "r" := by
  exact ⟨rfl, by simp⟩

/-- C5 as amended: for a reference-shape descriptor that carries no
literal `to` field, no Attribute node is created, the produced edge points
at the `ref` value, and the `ref` key itself does not appear among the
edge fields (descriptor fields carrying the reserved names `from` or `to`
would be copied over the endpoints). -/
theorem c5_ref_edge (node : Val) (data : Dict) (refv : Val)
    (edge : Dict) (o : Option (Val × Dict))
    (href : dlookup data "ref" = some refv)
    (hto : dmem data "to" = false)
    (hok : attrDescResult node (Val.dict data) = .ok (edge, o)) :
    o = none ∧ dlookup edge "to" = some refv ∧ dmem edge "ref" = false := by
  rcases attrDescResult_ref_cases node data refv href with ⟨dataF, heq, hlast, hdm⟩ | ⟨msg, herr⟩
  · rw [heq] at hok
    have ho : o = none := by
      injection hok with hp
      exact (congrArg Prod.snd hp).symm
    have hedge : edge = dupdate (dset [("from", node)] "to" refv) dataF := by
      injection hok with hp
      exact (congrArg Prod.fst hp).symm
    subst hedge
    refine ⟨ho, ?_, ?_⟩
    · rw [dlookup_dupdate]
      have hfl : dmem (flattenRequirement (ddel data "ref")) "to" = false := by
        rw [dmem_flattenRequirement _ _ (by decide) (by decide), dmem_ddel,
            if_neg (by decide)]
        exact hto
      have hnone : lastVal dataF "to" = none :=
        lastVal_eq_none_of_dmem _ _ (by rw [hdm _ (by decide)]; exact hfl)
      rw [hnone]
      show dlookup (dset [("from", node)] "to" refv) "to" = some refv
      rw [dlookup_dset, if_pos rfl]
    · rw [dmem_dupdate]
      have h1 : dmem (dset [("from", node)] "to" refv) "ref" = false := by
        rw [dmem_dset, if_neg (by decide)]
        rfl
      have h2 : dmem dataF "ref" = false := by
        rw [hdm _ (by decide), dmem_flattenRequirement _ _ (by decide) (by decide),
            dmem_ddel, if_pos rfl]
      rw [h1, h2]
      rfl
  · rw [herr] at hok
    exact Except.noConfusion hok

/-- C5 witness: the amended theorem at a concrete descriptor. -/
theorem c5_ref_edge_witness :
    (none : Option (Val × Dict)) = none
    ∧ dlookup [("from", Val.str "m"), ("to", Val.str "r"), ("brief", Val.str "x")] "to"
        = some (Val.str "r")
    ∧ dmem [("from", Val.str "m"), ("to", Val.str "r"), ("brief", Val.str "x")] "ref"
        = false :=
  c5_ref_edge (Val.str "m") [("ref", Val.str "r"), ("brief", Val.str "x")] (Val.str "r")
    [("from", Val.str "m"), ("to", Val.str "r"), ("brief", Val.str "x")] none
    (by rfl) (by rfl) (by rfl)


/-- C6 counterexample: two well-formed inline descriptors sharing the id
`a`.  One edge per descriptor is appended, so TWO edges target the id `a`,
while the claim demands exactly one edge targeting each inline id. -/
theorem c6_duplicate_target_cex :
    (let r := relate2attribute resetState "Metric" (Val.str "m")
        [Val.dict [("id", Val.str "a"), ("type", Val.str "string")],
         Val.dict [("id", Val.str "a"), ("type", Val.str "string")]]
     r.2 = none
     ∧ ebGet r.1.relations.hasAttribute "Metric"
         = [[("from", Val.str "m"), ("to", Val.str "a")],
            [("from", Val.str "m"), ("to", Val.str "a")]]) := by
  exact ⟨rfl, rfl⟩

/-- C6 as amended: on every descriptor list the resolver completes without
an exception on, exactly one HasAttribute edge is appended per descriptor,
in input order; every inline descriptor leaves a node keyed by its id in
the Attribute collection and its own edge targets that id (an id shared by
several descriptors is targeted once per descriptor, not exactly once). -/
theorem c6_one_edge_per_descriptor (st : SemState) (node_type : String) (node : Val)
    (attributes : List Val)
    (hsucc : (relate2attribute st node_type node attributes).2 = none) :
    (ebGet (relate2attribute st node_type node attributes).1.relations.hasAttribute node_type
      = ebGet st.relations.hasAttribute node_type ++ attributes.map (descEdgeOf node))
    ∧ (∀ a ∈ attributes, ∀ (k : Val) (fields : Dict), descIns node a = some (k, fields) →
        nmem (relate2attribute st node_type node attributes).1.nodes.attributeNodes k = true)
    ∧ (∀ (a k : Val) (fields : Dict), descIns node a = some (k, fields) →
        dlookup (descEdgeOf node a) "to" = some k) := by
  have hs2 : (foldE (attrStep node_type node)
      { st with relations.hasAttribute := ebSetdefault st.relations.hasAttribute node_type }
      attributes).2 = none := hsucc
  obtain ⟨h1, h2⟩ := relate2attribute_loop node_type node attributes _ hs2
      (ebMem_ebSetdefault_self _ _)
  refine ⟨?_, h2, fun a k fields h => descIns_to node a k fields h⟩
  show ebGet (foldE (attrStep node_type node)
      { st with relations.hasAttribute := ebSetdefault st.relations.hasAttribute node_type }
      attributes).1.relations.hasAttribute node_type = _
  rw [h1]
  show ebGet (ebSetdefault st.relations.hasAttribute node_type) node_type ++ _ = _
  rw [ebGet_ebSetdefault_self]

/-- C6 witness: the amended theorem on a two-descriptor list (one
reference shape, one inline shape). -/
theorem c6_one_edge_per_descriptor_witness :
    (ebGet (relate2attribute resetState "Metric" (Val.str "m")
        [Val.dict [("ref", Val.str "r")],
         Val.dict [("id", Val.str "a"), ("type", Val.str "string")]]).1.relations.hasAttribute "Metric"
      = ebGet resetState.relations.hasAttribute "Metric"
        ++ [Val.dict [("ref", Val.str "r")],
            Val.dict [("id", Val.str "a"), ("type", Val.str "string")]].map (descEdgeOf (Val.str "m")))
    ∧ (∀ a ∈ [Val.dict [("ref", Val.str "r")],
              Val.dict [("id", Val.str "a"), ("type", Val.str "string")]],
        ∀ (k : Val) (fields : Dict), descIns (Val.str "m") a = some (k, fields) →
          nmem (relate2attribute resetState "Metric" (Val.str "m")
            [Val.dict [("ref", Val.str "r")],
             Val.dict [("id", Val.str "a"), ("type", Val.str "string")]]).1.nodes.attributeNodes k = true)
    ∧ (∀ (a k : Val) (fields : Dict), descIns (Val.str "m") a = some (k, fields) →
        dlookup (descEdgeOf (Val.str "m") a) "to" = some k) :=
  c6_one_edge_per_descriptor resetState "Metric" (Val.str "m")
    [Val.dict [("ref", Val.str "r")],
     Val.dict [("id", Val.str "a"), ("type", Val.str "string")]] (by rfl)

/-- C10: the Attribute-Relation Resolver is partial exactly as claimed.
On a ref-less mapping descriptor, a missing `id` raises KeyError (state:
only the setdefault registration happened, nothing stored or appended);
with `id` present but `type` missing it raises KeyError as well; with both
present the descriptor is always processed without an exception. -/
theorem c10_resolver_partiality (st : SemState) (node_type : String) (node : Val)
    (data : Dict) (href : dmem data "ref" = false) :
    (dmem data "id" = false →
      relate2attribute st node_type node [Val.dict data]
        = ({ st with relations.hasAttribute := ebSetdefault st.relations.hasAttribute node_type },
           some "KeyError: id"))
    ∧ (dmem data "id" = true → dmem data "type" = false →
      relate2attribute st node_type node [Val.dict data]
        = ({ st with relations.hasAttribute := ebSetdefault st.relations.hasAttribute node_type },
           some "KeyError: type"))
    ∧ (dmem data "id" = true → dmem data "type" = true →
      (relate2attribute st node_type node [Val.dict data]).2 = none) := by
  have hrefl : dlookup data "ref" = none := dlookup_eq_none_of_dmem _ _ href
  refine ⟨?_, ?_, ?_⟩
  · intro hid
    have hidl : dlookup data "id" = none := dlookup_eq_none_of_dmem _ _ hid
    show foldE (attrStep node_type node) _ [Val.dict data] = _
    simp [foldE, attrStep, attrDescResult, hrefl, hidl]
  · intro hid hty
    obtain ⟨nm, hnm⟩ := Option.isSome_iff_exists.mp (by rw [← dmem_eq_isSome]; exact hid)
    show foldE (attrStep node_type node) _ [Val.dict data] = _
    simp [foldE, attrStep, attrDescResult, hrefl, hnm, hty]
  · intro hid hty
    obtain ⟨nm, hnm⟩ := Option.isSome_iff_exists.mp (by rw [← dmem_eq_isSome]; exact hid)
    show (foldE (attrStep node_type node) _ [Val.dict data]).2 = none
    simp [foldE, attrStep, attrDescResult, hrefl, hnm, hty]

/-- C10 witness: all three branches at concrete descriptors. -/
theorem c10_resolver_partiality_witness :
    relate2attribute resetState "Metric" (Val.str "m") [Val.dict [("brief", Val.str "x")]]
      = ({ resetState with relations.hasAttribute := (ebSetdefault resetState.relations.hasAttribute "Metric") },
         some "KeyError: id")
    ∧ relate2attribute resetState "Metric" (Val.str "m")
        [Val.dict [("id", Val.str "a"), ("brief", Val.str "x")]]
      = ({ resetState with relations.hasAttribute := (ebSetdefault resetState.relations.hasAttribute "Metric") },
         some "KeyError: type")
    ∧ (relate2attribute resetState "Metric" (Val.str "m")
        [Val.dict [("id", Val.str "a"), ("type", Val.str "string")]]).2 = none :=
  ⟨(c10_resolver_partiality resetState "Metric" (Val.str "m")
      [("brief", Val.str "x")] (by rfl)).1 (by rfl),
   (c10_resolver_partiality resetState "Metric" (Val.str "m")
      [("id", Val.str "a"), ("brief", Val.str "x")] (by rfl)).2.1 (by rfl) (by rfl),
   (c10_resolver_partiality resetState "Metric" (Val.str "m")
      [("id", Val.str "a"), ("type", Val.str "string")] (by rfl)).2.2 (by rfl) (by rfl)⟩

end SemConv
